import Mathlib

/-
Verification of the luanacha authenticated-envelope and key-exchange layer
(src/src/luanacha.c).  The Lua wrapper functions ln_ae_lock, ln_ae_unlock,
ln_x25519_keypair, ln_x25519_public_key and ln_lock_key are translated
directly from the C source.  The Monocypher primitives they call
(crypto_ae_lock, crypto_ae_unlock, crypto_x25519_public_key,
crypto_lock_key) and the randombytes entropy source are code of the
repository that is not in the inspected sources; they are modelled from the
specification's description of their contracts (stream cipher whose
ciphertext has the plaintext's length, a 16-byte tag, X25519 scalar
multiplication with its Diffie-Hellman symmetry, and a key-derivation
step).  Byte strings are lists of natural numbers; a Lua call result is a
`LuaResult`:  `luaError` is a raised luaL_error (the fatal InvalidInput
class), `nilErr` is the returned pair (nil, message) used for recoverable
failures, and `str` is a returned string.
-/

/-- Result of a Lua C-API call: a raised error (luaL_error / LERR, the
fatal InvalidInput class), a returned (nil, message) pair (recoverable
failure), or a returned byte string. -/
inductive LuaResult where
  | luaError (msg : String)
  | nilErr (msg : String)
  | str (s : List Nat)
deriving DecidableEq

/-- Modelled from the spec: one byte of the stream cipher's keystream for a
given key, nonce and position.  The external AEAD primitive is a stream
cipher + MAC construction; the concrete mixing function here is a model. -/
def keystreamByte (k n : List Nat) (i : Nat) : Nat :=
  (k.foldl (fun a b => a * 3 + b) 7 + n.foldl (fun a b => a * 5 + b) 11 + 13 * i) % 256

/-- Modelled from the spec: the first `len` keystream bytes. -/
def keystream (k n : List Nat) (len : Nat) : List Nat :=
  (List.range len).map (keystreamByte k n)

/-- Modelled from the spec: the 16-byte authentication tag computed over a
ciphertext under a key and nonce. -/
def tag16 (k n c : List Nat) : List Nat :=
  (List.range 16).map (fun i => (c.foldl (fun a b => a * 7 + b) 5 + keystreamByte k n (i + 1000)) % 256)

/-- Modelled from the spec: the ciphertext of a message, obtained by
xoring the message with the keystream; its length equals the message's. -/
def cipherOf (k n m : List Nat) : List Nat :=
  List.zipWith (fun a b => a ^^^ b) m (keystream k n m.length)

/-- Modelled from the spec: the external AEAD lock primitive
(crypto_ae_lock in Monocypher, not in the inspected sources).  It writes
ciphertext followed by the 16-byte tag, `len(plaintext) + 16` bytes. -/
def crypto_ae_lock (k n m : List Nat) : List Nat :=
  cipherOf k n m ++ tag16 k n (cipherOf k n m)

/-- Modelled from the spec: the external AEAD unlock primitive
(crypto_ae_unlock in Monocypher, not in the inspected sources).  `ct` is
the window of `mln + 16` bytes the C code hands it; it verifies the tag
over the first `mln` bytes and, only on success, returns the decrypted
plaintext; on MAC mismatch it reports failure (C status -1, here none). -/
def crypto_ae_unlock (k n ct : List Nat) (mln : Nat) : Option (List Nat) :=
  if (ct.drop mln).take 16 = tag16 k n (ct.take mln) then
    some (List.zipWith (fun a b => a ^^^ b) (ct.take mln) (keystream k n mln))
  else none

/-- Translated from ln_ae_lock in src/src/luanacha.c: after the size
checks (nonce first, then key, then the modulo-8 check on the fourth
argument) it allocates `mln + 16 + pfxln` bytes, lets the primitive write
ciphertext-plus-tag at position `pfxln`, and copies `pfx` to position 0. -/
def ln_ae_lock (k n m pfx : List Nat) : LuaResult :=
  if n.length ≠ 24 then .luaError "bad nonce size"
  else if k.length ≠ 32 then .luaError "bad key size"
  else if pfx.length % 8 ≠ 0 then .luaError "bad prefix size"
  else .str (pfx ++ crypto_ae_lock k n m)

/-- The plaintext length `mln = cln - i - 16` exactly as ln_ae_unlock
computes it: in C `mln` is a size_t, so the subtraction wraps modulo
2^64 and a negative mathematical value becomes a huge unsigned one. -/
def unlockMln (cln : Nat) (i : Int) : Nat :=
  (((cln : Int) - i - 16).emod 18446744073709551616).toNat

/-- Translated from ln_ae_unlock in src/src/luanacha.c: size checks on
nonce then key, then `mln = cln - i - 16` (size_t arithmetic, no
negativity check), then the unlock primitive reads `mln + 16` bytes
starting at byte `i` of the envelope; on nonzero status the function
returns the pair (nil, "unlock error"), otherwise the `mln`-byte
plaintext. -/
def ln_ae_unlock (k n c : List Nat) (i : Int) : LuaResult :=
  if n.length ≠ 24 then .luaError "bad nonce size"
  else if k.length ≠ 32 then .luaError "bad key size"
  else
    match crypto_ae_unlock k n ((c.drop i.toNat).take (unlockMln c.length i + 16)) (unlockMln c.length i) with
    | some m => .str m
    | none => .nilErr "unlock error"

/-- Modelled from the spec: little-endian value of a byte string, used to
read a 32-byte scalar or curve point in the model of the X25519
primitives. -/
def natOfBytes (l : List Nat) : Nat :=
  l.foldr (fun b acc => b + 256 * acc) 0

/-- Modelled from the spec: a 32-byte encoding of a small value (the model
group's elements all fit in one byte). -/
def encode32 (v : Nat) : List Nat :=
  v % 256 :: List.replicate 31 0

/-- Modelled from the spec: modulus of the model group standing in for the
curve (a prime below 256 so elements encode in one byte). -/
def pmod : Nat := 251

/-- Modelled from the spec: base point (generator) of the model group. -/
def gbase : Nat := 6

/-- Modelled from the spec: the external scalar-multiplication-by-base
primitive (crypto_x25519_public_key in Monocypher, not in the inspected
sources): the public key is a deterministic function of the secret key,
modelled as g ^ sk in the model group. -/
def crypto_x25519_public_key (sk : List Nat) : List Nat :=
  encode32 (gbase ^ natOfBytes sk % pmod)

/-- Modelled from the spec: the raw Diffie-Hellman shared value pk ^ sk in
the model group. -/
def dhRaw (sk pk : List Nat) : Nat :=
  (natOfBytes pk % pmod) ^ natOfBytes sk % pmod

/-- Modelled from the spec: the external DH-plus-key-derivation primitive
(crypto_lock_key in Monocypher, not in the inspected sources).  It returns
a status (nonzero when the shared point is degenerate, i.e. zero) and a
32-byte session key derived from the shared value. -/
def crypto_lock_key (sk pk : List Nat) : Nat × List Nat :=
  (if dhRaw sk pk = 0 then 1 else 0,
   (List.range 32).map (fun j => (dhRaw sk pk * (j + 3) + 5) % 256))

/-- Translated from ln_x25519_public_key in src/src/luanacha.c: checks the
secret key is 32 bytes, then returns the derived public key. -/
def ln_x25519_public_key (sk : List Nat) : LuaResult :=
  if sk.length ≠ 32 then .luaError "bad sk size"
  else .str (crypto_x25519_public_key sk)

/-- Translated from ln_x25519_keypair in src/src/luanacha.c.  The external
randombytes entropy source is modelled by the explicit argument `rand`,
the 32 bytes it writes into sk.  The C function pushes pk first and sk
second, so the returned pair is (public key, secret key). -/
def ln_x25519_keypair (rand : List Nat) : List Nat × List Nat :=
  (crypto_x25519_public_key rand, rand)

/-- Translated from ln_lock_key in src/src/luanacha.c: checks the public
key then the secret key are 32 bytes, calls crypto_lock_key, discards its
status, and returns the 32-byte session key. -/
def ln_lock_key (sk pk : List Nat) : LuaResult :=
  if pk.length ≠ 32 then .luaError "bad pk size"
  else if sk.length ≠ 32 then .luaError "bad sk size"
  else .str (crypto_lock_key sk pk).2

theorem keystream_length (k n : List Nat) (len : Nat) :
    (keystream k n len).length = len := by
  simp [keystream]

theorem tag16_length (k n c : List Nat) : (tag16 k n c).length = 16 := by
  simp [tag16]

theorem cipherOf_length (k n m : List Nat) : (cipherOf k n m).length = m.length := by
  simp [cipherOf, keystream]

theorem crypto_ae_lock_length (k n m : List Nat) :
    (crypto_ae_lock k n m).length = m.length + 16 := by
  simp [crypto_ae_lock, cipherOf_length, tag16_length]

theorem zipWith_xor_cancel (m ks : List Nat) (h : m.length ≤ ks.length) :
    List.zipWith (fun a b => a ^^^ b) (List.zipWith (fun a b => a ^^^ b) m ks) ks = m := by
  induction m generalizing ks with
  | nil => simp
  | cons a m ih =>
    cases ks with
    | nil => simp at h
    | cons b ks =>
      simp only [List.zipWith]
      rw [Nat.xor_assoc, Nat.xor_self, Nat.xor_zero]
      exact congrArg (List.cons a) (ih ks (Nat.le_of_succ_le_succ h))

theorem crypto_roundtrip (k n m : List Nat) :
    crypto_ae_unlock k n (crypto_ae_lock k n m) m.length = some m := by
  rw [crypto_ae_unlock, crypto_ae_lock]
  rw [List.take_left' (cipherOf_length k n m), List.drop_left' (cipherOf_length k n m)]
  rw [List.take_of_length_le (by rw [tag16_length])]
  rw [if_pos rfl]
  rw [cipherOf]
  rw [zipWith_xor_cancel m _ (by rw [keystream_length])]

theorem unlockMln_eval (plen mlen : Nat) (hm : mlen < 2 ^ 64) :
    unlockMln (plen + (mlen + 16)) (plen : Int) = mlen := by
  have hm' : mlen < 18446744073709551616 := by norm_num at hm; exact hm
  have h1 : ((plen + (mlen + 16) : Nat) : Int) - (plen : Int) - 16 = (mlen : Int) := by
    push_cast; ring
  unfold unlockMln
  rw [h1]
  show ((mlen : Int) % 18446744073709551616).toNat = mlen
  rw [Int.emod_eq_of_lt (by positivity) (by exact_mod_cast hm')]
  simp

/-- C1: for every 32-byte key, 24-byte nonce, plaintext (of a length a
size_t can hold) and prefix of length a multiple of 8, ae_lock returns the
envelope prefix-plus-ciphertext-plus-tag, and ae_unlock on that envelope
with the prefix length as offset returns the original plaintext. -/
theorem unlock_lock_roundtrip (k n m pfx : List Nat) (hk : k.length = 32)
    (hn : n.length = 24) (hp : pfx.length % 8 = 0) (hm : m.length < 2 ^ 64) :
    ln_ae_lock k n m pfx = LuaResult.str (pfx ++ crypto_ae_lock k n m) ∧
    ln_ae_unlock k n (pfx ++ crypto_ae_lock k n m) (pfx.length : Int) = LuaResult.str m := by
  constructor
  · simp [ln_ae_lock, hk, hn, hp]
  · have hlen : (pfx ++ crypto_ae_lock k n m).length = pfx.length + (m.length + 16) := by
      simp [crypto_ae_lock_length]
    have hmln : unlockMln (pfx ++ crypto_ae_lock k n m).length (pfx.length : Int) = m.length := by
      rw [hlen]; exact unlockMln_eval _ _ hm
    rw [ln_ae_unlock, if_neg (by simp [hn]), if_neg (by simp [hk]), hmln]
    have htn : ((pfx.length : Int)).toNat = pfx.length := by simp
    rw [htn, List.drop_left, List.take_of_length_le (by rw [crypto_ae_lock_length]),
      crypto_roundtrip]

theorem unlock_lock_roundtrip_witness :
    ln_ae_lock (List.replicate 32 0) (List.replicate 24 0) [104, 101, 108, 108, 111] (List.replicate 8 1) =
      LuaResult.str (List.replicate 8 1 ++ crypto_ae_lock (List.replicate 32 0) (List.replicate 24 0) [104, 101, 108, 108, 111]) ∧
    ln_ae_unlock (List.replicate 32 0) (List.replicate 24 0)
      (List.replicate 8 1 ++ crypto_ae_lock (List.replicate 32 0) (List.replicate 24 0) [104, 101, 108, 108, 111]) 8 =
      LuaResult.str [104, 101, 108, 108, 111] := by
  have h := unlock_lock_roundtrip (List.replicate 32 0) (List.replicate 24 0)
    [104, 101, 108, 108, 111] (List.replicate 8 1) (by decide) (by decide) (by decide)
    (by norm_num)
  simpa using h

/-- C6: for every valid key, nonce, plaintext and prefix, the envelope
returned by ae_lock has length len(pfx) + len(m) + 16, the prefix occupies
position 0, and the ciphertext-plus-tag sits immediately after. -/
theorem lock_envelope_layout (k n m pfx : List Nat) (hk : k.length = 32)
    (hn : n.length = 24) (hp : pfx.length % 8 = 0) :
    ln_ae_lock k n m pfx = LuaResult.str (pfx ++ crypto_ae_lock k n m) ∧
    (pfx ++ crypto_ae_lock k n m).length = pfx.length + m.length + 16 ∧
    (pfx ++ crypto_ae_lock k n m).take pfx.length = pfx ∧
    (pfx ++ crypto_ae_lock k n m).drop pfx.length = crypto_ae_lock k n m := by
  refine ⟨by simp [ln_ae_lock, hk, hn, hp], ?_, List.take_left pfx _, List.drop_left pfx _⟩
  rw [List.length_append, crypto_ae_lock_length]
  omega

theorem lock_envelope_layout_witness :
    ln_ae_lock (List.replicate 32 0) (List.replicate 24 0) [1, 2, 3] (List.replicate 8 9) =
      LuaResult.str (List.replicate 8 9 ++ crypto_ae_lock (List.replicate 32 0) (List.replicate 24 0) [1, 2, 3]) ∧
    (List.replicate 8 9 ++ crypto_ae_lock (List.replicate 32 0) (List.replicate 24 0) [1, 2, 3]).length = 8 + 3 + 16 ∧
    (List.replicate 8 9 ++ crypto_ae_lock (List.replicate 32 0) (List.replicate 24 0) [1, 2, 3]).take 8 = List.replicate 8 9 ∧
    (List.replicate 8 9 ++ crypto_ae_lock (List.replicate 32 0) (List.replicate 24 0) [1, 2, 3]).drop 8 =
      crypto_ae_lock (List.replicate 32 0) (List.replicate 24 0) [1, 2, 3] := by
  have h := lock_envelope_layout (List.replicate 32 0) (List.replicate 24 0) [1, 2, 3]
    (List.replicate 8 9) (by decide) (by decide) (by decide)
  simpa using h

/-- C5: ae_lock raises a luaL_error (the fatal InvalidInput class) whenever
the key is not 32 bytes, the nonce not 24 bytes, or the fourth argument's
length is not a multiple of 8; ae_unlock does so whenever the key is not 32
bytes or the nonce not 24 bytes. -/
theorem lock_unlock_size_validation (k n m pfx c : List Nat) (i : Int) :
    (k.length ≠ 32 → ∃ msg, ln_ae_lock k n m pfx = LuaResult.luaError msg) ∧
    (n.length ≠ 24 → ∃ msg, ln_ae_lock k n m pfx = LuaResult.luaError msg) ∧
    (pfx.length % 8 ≠ 0 → ∃ msg, ln_ae_lock k n m pfx = LuaResult.luaError msg) ∧
    (k.length ≠ 32 → ∃ msg, ln_ae_unlock k n c i = LuaResult.luaError msg) ∧
    (n.length ≠ 24 → ∃ msg, ln_ae_unlock k n c i = LuaResult.luaError msg) := by
  refine ⟨fun hk => ?_, fun hn => ?_, fun hp => ?_, fun hk => ?_, fun hn => ?_⟩
  · by_cases hn : n.length = 24
    · exact ⟨"bad key size", by simp [ln_ae_lock, hn, hk]⟩
    · exact ⟨"bad nonce size", by simp [ln_ae_lock, hn]⟩
  · exact ⟨"bad nonce size", by simp [ln_ae_lock, hn]⟩
  · by_cases hn : n.length = 24
    · by_cases hk : k.length = 32
      · exact ⟨"bad prefix size", by simp [ln_ae_lock, hn, hk, hp]⟩
      · exact ⟨"bad key size", by simp [ln_ae_lock, hn, hk]⟩
    · exact ⟨"bad nonce size", by simp [ln_ae_lock, hn]⟩
  · by_cases hn : n.length = 24
    · exact ⟨"bad key size", by simp [ln_ae_unlock, hn, hk]⟩
    · exact ⟨"bad nonce size", by simp [ln_ae_unlock, hn]⟩
  · exact ⟨"bad nonce size", by simp [ln_ae_unlock, hn]⟩

theorem lock_unlock_size_validation_witness :
    (∃ msg, ln_ae_lock (List.replicate 31 0) (List.replicate 24 0) [] [] = LuaResult.luaError msg) ∧
    (∃ msg, ln_ae_lock (List.replicate 32 0) (List.replicate 23 0) [] [] = LuaResult.luaError msg) ∧
    (∃ msg, ln_ae_lock (List.replicate 32 0) (List.replicate 24 0) [] [7] = LuaResult.luaError msg) ∧
    (∃ msg, ln_ae_unlock (List.replicate 31 0) (List.replicate 24 0) [] 0 = LuaResult.luaError msg) ∧
    (∃ msg, ln_ae_unlock (List.replicate 32 0) (List.replicate 23 0) [] 0 = LuaResult.luaError msg) := by
  refine ⟨(lock_unlock_size_validation (List.replicate 31 0) (List.replicate 24 0) [] [] [] 0).1 (by decide),
    (lock_unlock_size_validation (List.replicate 32 0) (List.replicate 23 0) [] [] [] 0).2.1 (by decide),
    (lock_unlock_size_validation (List.replicate 32 0) (List.replicate 24 0) [] [7] [] 0).2.2.1 (by decide),
    (lock_unlock_size_validation (List.replicate 31 0) (List.replicate 24 0) [] [] [] 0).2.2.2.1 (by decide),
    (lock_unlock_size_validation (List.replicate 32 0) (List.replicate 23 0) [] [] [] 0).2.2.2.2 (by decide)⟩

/-- C2 (code bug): ae_unlock performs no negativity check on the computed
plaintext length.  With a valid 32-byte key and 24-byte nonce, a 5-byte
envelope and offset 0 (computed length 5 - 0 - 16 = -11), the size_t
subtraction wraps to 2^64 - 11 and the function proceeds to call the
decryption primitive (an out-of-bounds read in C) instead of failing with
InvalidInput: no luaL_error is raised for this condition. -/
theorem unlock_negative_length_underflow :
    unlockMln 5 0 = 2 ^ 64 - 11 ∧
    ln_ae_unlock (List.replicate 32 0) (List.replicate 24 0) [1, 2, 3, 4, 5] 0 =
      LuaResult.nilErr "unlock error" ∧
    (∀ msg, ln_ae_unlock (List.replicate 32 0) (List.replicate 24 0) [1, 2, 3, 4, 5] 0 ≠
      LuaResult.luaError msg) := by
  refine ⟨by decide, by decide, fun msg => ?_⟩
  intro h
  rw [show ln_ae_unlock (List.replicate 32 0) (List.replicate 24 0) [1, 2, 3, 4, 5] 0 =
      LuaResult.nilErr "unlock error" from by decide] at h
  exact LuaResult.noConfusion h

/-- C4: whenever the key and nonce sizes are valid and the decryption
primitive reports a tag-verification failure on the window the wrapper
hands it, ae_unlock returns the pair (nil, "unlock error") — a normal
"no value" result with a diagnostic message, not a raised luaL_error, and
carrying no plaintext bytes. -/
theorem unlock_mac_failure_reports_nil (k n c : List Nat) (i : Int)
    (hk : k.length = 32) (hn : n.length = 24)
    (hfail : crypto_ae_unlock k n ((c.drop i.toNat).take (unlockMln c.length i + 16)) (unlockMln c.length i) = none) :
    ln_ae_unlock k n c i = LuaResult.nilErr "unlock error" := by
  rw [ln_ae_unlock, if_neg (by simp [hn]), if_neg (by simp [hk]), hfail]

theorem unlock_mac_failure_reports_nil_witness :
    ln_ae_unlock (List.replicate 32 0) (List.replicate 24 0) (List.replicate 16 0) 0 =
      LuaResult.nilErr "unlock error" :=
  unlock_mac_failure_reports_nil (List.replicate 32 0) (List.replicate 24 0)
    (List.replicate 16 0) 0 (by decide) (by decide) (by decide)

/-- C8: the result of ae_unlock depends only on the bytes of the envelope
from the offset onward: two envelopes of equal length that agree on every
byte at positions at or after a nonnegative offset yield identical results
for the same key, nonce and offset. -/
theorem unlock_depends_only_on_suffix (k n c1 c2 : List Nat) (i : Int)
    (_hi : 0 ≤ i) (hlen : c1.length = c2.length)
    (hsuf : c1.drop i.toNat = c2.drop i.toNat) :
    ln_ae_unlock k n c1 i = ln_ae_unlock k n c2 i := by
  rw [ln_ae_unlock, ln_ae_unlock, hlen, hsuf]

theorem unlock_depends_only_on_suffix_witness :
    ln_ae_unlock (List.replicate 32 0) (List.replicate 24 0)
      (List.replicate 8 7 ++ List.replicate 16 0) 8 =
    ln_ae_unlock (List.replicate 32 0) (List.replicate 24 0)
      (List.replicate 8 9 ++ List.replicate 16 0) 8 :=
  unlock_depends_only_on_suffix (List.replicate 32 0) (List.replicate 24 0)
    (List.replicate 8 7 ++ List.replicate 16 0) (List.replicate 8 9 ++ List.replicate 16 0)
    8 (by decide) (by decide) (by decide)

theorem crypto_ae_unlock_zero (k n ct : List Nat) :
    crypto_ae_unlock k n ct 0 = none ∨ crypto_ae_unlock k n ct 0 = some [] := by
  rw [crypto_ae_unlock]
  split
  · right; simp
  · left; rfl

/-- C10: a computed plaintext length of exactly zero is accepted: with a
valid key and nonce and offset len(envelope) - 16, ae_unlock never raises a
luaL_error, and either reports the recoverable (nil, "unlock error") or
returns the empty plaintext when tag verification succeeds. -/
theorem unlock_zero_length_accepted (k n c : List Nat) (hk : k.length = 32)
    (hn : n.length = 24) (_hc : 16 ≤ c.length) :
    (∀ msg, ln_ae_unlock k n c ((c.length : Int) - 16) ≠ LuaResult.luaError msg) ∧
    (ln_ae_unlock k n c ((c.length : Int) - 16) = LuaResult.nilErr "unlock error" ∨
      ln_ae_unlock k n c ((c.length : Int) - 16) = LuaResult.str []) := by
  have hmln : unlockMln c.length ((c.length : Int) - 16) = 0 := by
    unfold unlockMln
    have h1 : (c.length : Int) - ((c.length : Int) - 16) - 16 = 0 := by ring
    rw [h1]
    rfl
  rw [ln_ae_unlock, if_neg (by simp [hn]), if_neg (by simp [hk]), hmln]
  rcases crypto_ae_unlock_zero k n ((c.drop ((c.length : Int) - 16).toNat).take (0 + 16)) with h | h <;> rw [h]
  · exact ⟨fun msg hcontra => LuaResult.noConfusion hcontra, Or.inl rfl⟩
  · exact ⟨fun msg hcontra => LuaResult.noConfusion hcontra, Or.inr rfl⟩

theorem unlock_zero_length_accepted_witness :
    (∀ msg, ln_ae_unlock (List.replicate 32 0) (List.replicate 24 0)
      (crypto_ae_lock (List.replicate 32 0) (List.replicate 24 0) [])
      (((crypto_ae_lock (List.replicate 32 0) (List.replicate 24 0) []).length : Int) - 16) ≠
      LuaResult.luaError msg) ∧
    (ln_ae_unlock (List.replicate 32 0) (List.replicate 24 0)
      (crypto_ae_lock (List.replicate 32 0) (List.replicate 24 0) [])
      (((crypto_ae_lock (List.replicate 32 0) (List.replicate 24 0) []).length : Int) - 16) =
      LuaResult.nilErr "unlock error" ∨
     ln_ae_unlock (List.replicate 32 0) (List.replicate 24 0)
      (crypto_ae_lock (List.replicate 32 0) (List.replicate 24 0) [])
      (((crypto_ae_lock (List.replicate 32 0) (List.replicate 24 0) []).length : Int) - 16) =
      LuaResult.str []) :=
  unlock_zero_length_accepted (List.replicate 32 0) (List.replicate 24 0)
    (crypto_ae_lock (List.replicate 32 0) (List.replicate 24 0) [])
    (by decide) (by decide) (by decide)

theorem pub_length (sk : List Nat) : (crypto_x25519_public_key sk).length = 32 := rfl

theorem natOfBytes_encode32 (v : Nat) : natOfBytes (encode32 v) = v % 256 := by
  show v % 256 + 256 * natOfBytes (List.replicate 31 0) = v % 256
  rw [show natOfBytes (List.replicate 31 0) = 0 from by decide]
  omega

theorem dhRaw_pub (a b : List Nat) :
    dhRaw a (crypto_x25519_public_key b) = gbase ^ (natOfBytes b * natOfBytes a) % pmod := by
  have hv : gbase ^ natOfBytes b % pmod < pmod := Nat.mod_lt _ (by norm_num [pmod])
  rw [dhRaw, crypto_x25519_public_key, natOfBytes_encode32]
  rw [Nat.mod_eq_of_lt (lt_of_lt_of_le hv (by norm_num [pmod]))]
  rw [Nat.mod_eq_of_lt hv]
  rw [← Nat.pow_mod]
  rw [← pow_mul]

/-- C3 counterexample: with the secret key drawn from the entropy source
equal to 32 zero bytes, the first component of the pair returned by
x25519_keypair is not that secret key: the C code pushes the public key
first and the secret key second. -/
theorem keypair_component_order_counterexample :
    (ln_x25519_keypair (List.replicate 32 0)).1 ≠ List.replicate 32 0 ∧
    (ln_x25519_keypair (List.replicate 32 0)).2 = List.replicate 32 0 := by
  decide

/-- C3 amended: x25519_keypair returns the pair (publicKey, secretKey):
the first component is the 32-byte public key, the second the 32-byte
secret key (the bytes drawn from the entropy source), and the first
component equals the derived public key of the second, both via the raw
primitive and via ln_x25519_public_key. -/
theorem keypair_returns_public_then_secret (rand : List Nat) (h : rand.length = 32) :
    (ln_x25519_keypair rand).1 = crypto_x25519_public_key ((ln_x25519_keypair rand).2) ∧
    (ln_x25519_keypair rand).2 = rand ∧
    (ln_x25519_keypair rand).1.length = 32 ∧
    (ln_x25519_keypair rand).2.length = 32 ∧
    ln_x25519_public_key ((ln_x25519_keypair rand).2) = LuaResult.str ((ln_x25519_keypair rand).1) := by
  refine ⟨rfl, rfl, pub_length rand, h, ?_⟩
  show ln_x25519_public_key rand = LuaResult.str (crypto_x25519_public_key rand)
  rw [ln_x25519_public_key, if_neg (by simp [h])]

theorem keypair_returns_public_then_secret_witness :
    (ln_x25519_keypair (List.replicate 32 3)).1 = crypto_x25519_public_key ((ln_x25519_keypair (List.replicate 32 3)).2) ∧
    (ln_x25519_keypair (List.replicate 32 3)).2 = List.replicate 32 3 ∧
    (ln_x25519_keypair (List.replicate 32 3)).1.length = 32 ∧
    (ln_x25519_keypair (List.replicate 32 3)).2.length = 32 ∧
    ln_x25519_public_key ((ln_x25519_keypair (List.replicate 32 3)).2) =
      LuaResult.str ((ln_x25519_keypair (List.replicate 32 3)).1) :=
  keypair_returns_public_then_secret (List.replicate 32 3) (by decide)

/-- C7: Diffie-Hellman symmetry of lock_key: for two 32-byte secret keys,
deriving the session key from one's secret key and the other's public key
gives the same result either way around. -/
theorem session_key_symmetry (skA skB : List Nat) (hA : skA.length = 32) (hB : skB.length = 32) :
    ln_lock_key skA (crypto_x25519_public_key skB) = ln_lock_key skB (crypto_x25519_public_key skA) := by
  have hd : dhRaw skA (crypto_x25519_public_key skB) = dhRaw skB (crypto_x25519_public_key skA) := by
    rw [dhRaw_pub, dhRaw_pub, Nat.mul_comm]
  rw [ln_lock_key, ln_lock_key]
  rw [if_neg (by simp [pub_length]), if_neg (by simp [hA]),
    if_neg (by simp [pub_length]), if_neg (by simp [hB])]
  simp only [crypto_lock_key, hd]

theorem session_key_symmetry_witness :
    ln_lock_key (3 :: List.replicate 31 0) (crypto_x25519_public_key (5 :: List.replicate 31 0)) =
    ln_lock_key (5 :: List.replicate 31 0) (crypto_x25519_public_key (3 :: List.replicate 31 0)) :=
  session_key_symmetry (3 :: List.replicate 31 0) (5 :: List.replicate 31 0) (by decide) (by decide)

/-- C9: lock_key has no failure path beyond the two 32-byte length checks:
for every pair of 32-byte inputs it returns a 32-byte session key as a
string, discarding the status of the underlying Diffie-Hellman primitive,
so degenerate peer public keys are never reported as errors. -/
theorem lock_key_no_failure_path (sk pk : List Nat) (hs : sk.length = 32) (hp : pk.length = 32) :
    ln_lock_key sk pk = LuaResult.str (crypto_lock_key sk pk).2 ∧
    (crypto_lock_key sk pk).2.length = 32 := by
  constructor
  · rw [ln_lock_key, if_neg (by simp [hp]), if_neg (by simp [hs])]
  · simp [crypto_lock_key]

theorem lock_key_no_failure_path_witness :
    (crypto_lock_key (3 :: List.replicate 31 0) (List.replicate 32 0)).1 ≠ 0 ∧
    (ln_lock_key (3 :: List.replicate 31 0) (List.replicate 32 0) =
      LuaResult.str (crypto_lock_key (3 :: List.replicate 31 0) (List.replicate 32 0)).2 ∧
     (crypto_lock_key (3 :: List.replicate 31 0) (List.replicate 32 0)).2.length = 32) :=
  ⟨by decide, lock_key_no_failure_path (3 :: List.replicate 31 0) (List.replicate 32 0) (by decide) (by decide)⟩
